import Mathlib

/-!
Verification development for the D-Stack feedback analysis repository
(ingestion pipeline `ingest.py` + `utils.py`, partition reader in `App.py`).

The pipeline's data model and operations are shallowly embedded:

* a dataframe is a `List` of records; each pipeline stage's record schema is
  a Lean structure (`RawIssue` for the fetched rows, `CleanedIssue` for the
  projected output of `clean_issues_df`, `PIssue` for the enriched rows the
  postprocessor transforms);
* timestamps are integers: `strptime`/`fromisoformat` parsing (which
  hard-fails on malformed input) is modelled as already performed, and a
  parse failure is modelled as a failing clean stage in `run_pipeline`;
* Python floats carrying sentiment scores are modelled as rationals (the
  pipeline only stores and compares them, never does float arithmetic);
* a call to a remote service is modelled by its outcome, an
  `Except Unit α` value: `Except.error ()` stands for the call raising;
* Python's `str.strip` / `str.split(",")` and polars' `str.strip_suffix`
  are modelled character-wise (`stripChars`, `splitOnChar`,
  `stripSuffixOnce`) so that every definition evaluates by `decide`.
-/

/-- Model of Python's `str.strip()`: drop whitespace from both ends of the
character list of a string. -/
def stripChars (l : List Char) : List Char :=
  ((l.dropWhile Char.isWhitespace).reverse.dropWhile Char.isWhitespace).reverse

/-- Model of Python's `str.split(sep)` for a one-character separator:
`splitOnChar c l` cuts `l` at every occurrence of `c`; the empty list splits
to `[[]]`, matching Python's `"".split(",") == [""]`. -/
def splitOnChar (c : Char) : List Char → List (List Char)
  | [] => [[]]
  | a :: as =>
    match splitOnChar c as with
    | [] => [[a]]
    | r :: rs => if a = c then [] :: r :: rs else (a :: r) :: rs

/-- Whether string `s` ends with `suf`, computed on the character lists. -/
def endsWithStr (s suf : String) : Bool :=
  suf.data.isSuffixOf s.data

/-- Model of polars `Expr.str.strip_suffix(suf)`: remove one occurrence of
`suf` from the end of `s` when present, otherwise return `s` unchanged. -/
def stripSuffixOnce (s suf : String) : String :=
  if endsWithStr s suf then String.mk (s.data.take (s.data.length - suf.data.length)) else s

/-- `validate_labels` from `ingest.py`: split the raw model response on
commas, strip whitespace from each token, and keep exactly the tokens that
are members of the allowed-label vocabulary, in response order. -/
def validate_labels (labels_str : String) (allowed_labels : List String) : List String :=
  (((splitOnChar ',' labels_str.data).map (fun t => String.mk (stripChars t)))).filter
    (fun label => allowed_labels.contains label)

/-- `get_sentiment_score` from `ingest.py`: `0.0` for empty input text;
otherwise the remote sentiment service's score, or `0.0` when the call
raises. -/
def get_sentiment_score (response : Except Unit ℚ) (text_content : String) : ℚ :=
  if text_content = "" then 0
  else
    match response with
    | Except.ok score => score
    | Except.error _ => 0

/-- `classify_issue_multilabel` from `ingest.py`: on success, strip the raw
completion text and validate it against the allowed labels; when the remote
call raises, return the empty label list. -/
def classify_issue_multilabel (response : Except Unit String) (labels : List String) :
    List String :=
  match response with
  | Except.ok t => validate_labels (String.mk (stripChars t.data)) labels
  | Except.error _ => []

/-- `add_issue_org_attribution` from `ingest.py`: on success, the stripped
completion text; when the remote call raises, the sentinel "Unklar". -/
def add_issue_org_attribution (response : Except Unit String) : String :=
  match response with
  | Except.ok t => String.mk (stripChars t.data)
  | Except.error _ => "Unklar"

/-- The nested `author` object of a raw GitLab issue (id, display name,
state), flattened by `clean_issues_df`. -/
structure Author where
  id : Int
  name : String
  state : String
deriving DecidableEq

/-- A raw fetched issue as `fetch_all_gitlab_issues` returns it, restricted
to the fields the pipeline touches. The three timestamps are modelled as
already parsed integers (`closed_at` may be absent). -/
structure RawIssue where
  iid : Int
  title : String
  description : String
  state : String
  created_at : Int
  updated_at : Int
  closed_at : Option Int
  author : Author
  user_notes_count : Int
  upvotes : Int
  downvotes : Int
  references : String
deriving DecidableEq

/-- A cleaned issue: the fixed `COLUMNS_TO_KEEP` projection produced by
`clean_issues_df`, with the author object flattened into
`author_id` / `author_name` / `author_state`. -/
structure CleanedIssue where
  iid : Int
  title : String
  description : String
  state : String
  created_at : Int
  updated_at : Int
  closed_at : Option Int
  author_id : Int
  author_name : String
  author_state : String
  user_notes_count : Int
  upvotes : Int
  downvotes : Int
  references : String
deriving DecidableEq

/-- The `COLUMNS_TO_KEEP` projection (`df.select(columns_to_use)` at the end
of `clean_issues_df`) together with the author flattening done at its start. -/
def select_columns_to_keep (r : RawIssue) : CleanedIssue :=
  { iid := r.iid, title := r.title, description := r.description, state := r.state,
    created_at := r.created_at, updated_at := r.updated_at, closed_at := r.closed_at,
    author_id := r.author.id, author_name := r.author.name, author_state := r.author.state,
    user_notes_count := r.user_notes_count, upvotes := r.upvotes, downvotes := r.downvotes,
    references := r.references }

/-- Keep-first deduplication by a key, modelling polars
`DataFrame.unique(subset=...)` (which keeps one arbitrary survivor per key;
the model resolves the arbitrary choice to the first occurrence). -/
def dedupByFirst {α β : Type} [DecidableEq β] (key : α → β) : List α → List α
  | [] => []
  | x :: xs => x :: (dedupByFirst key xs).filter (fun y => decide (key y ≠ key x))

/-- `IDS_TO_EXCLUDE = list(range(1, 9))` from `ingest.py`: seed/test issue
iids dropped by the cleaner. -/
def IDS_TO_EXCLUDE : List Int := [1, 2, 3, 4, 5, 6, 7, 8]

/-- `clean_issues_df` from `utils.py`: flatten the author struct, (parse the
timestamps,) drop the excluded iids, deduplicate on the
(title, description) pair, and project to `COLUMNS_TO_KEEP`. -/
def clean_issues_df (df : List RawIssue) (rows_to_exclude : List Int) : List CleanedIssue :=
  ((dedupByFirst (fun r => (r.title, r.description))
      (df.filter (fun r => decide (r.iid ∉ rows_to_exclude)))).map select_columns_to_keep)

/-- An enriched issue at the postprocessing stage: the cleaned/derived
columns the postprocessor and the persistence steps read (`labels` is the
label-list column the postprocessor rewrites, `form_page` the page column it
filters and normalizes). -/
structure PIssue where
  iid : Int
  title : String
  desc_clean : String
  created_at : Int
  sentiment : ℚ
  labels : List String
  org : String
  is_from_form : Bool
  form_page : String
deriving DecidableEq

/-- The page-exclusion list hardcoded inside `postprocess_issues`
(`utils.py` line 101). -/
def exclude_pages : List String := ["/beteiligung?utm_source=chatgpt.com", "/wtf"]

/-- `EXCLUDE_PAGES` from `ingest.py` line 67: the configured excluded-page
set (three values; note `postprocess_issues` uses its own two-value list). -/
def EXCLUDE_PAGES : List String :=
  ["/beteiligung?utm_source=chatgpt.com", "/wtf",
   "/landkarte/ Tech-Stack Aufnahmekriterien & Prozess"]

/-- First postprocessing rule: a record with an empty label list receives
the single sentinel label "Unklar". -/
def fix_empty_labels (r : PIssue) : PIssue :=
  if r.labels = [] then { r with labels := ["Unklar"] } else r

/-- Third postprocessing rule: `form_page` exactly "/" becomes "home",
otherwise one trailing "/" is stripped. -/
def normalize_form_page (r : PIssue) : PIssue :=
  if r.form_page = "/" then { r with form_page := "home" }
  else { r with form_page := stripSuffixOnce r.form_page "/" }

/-- `postprocess_issues` from `utils.py`: default empty labels to
["Unklar"], then drop the rows whose `form_page` is in `exclude_pages`,
then normalize `form_page`, in that order. -/
def postprocess_issues (df : List PIssue) : List PIssue :=
  (((df.map fix_empty_labels).filter
      (fun r => decide (r.form_page ∉ exclude_pages))).map normalize_form_page)

/-- The incremental filter in `main` (`ingest.py` lines 359-371): with a
stored watermark, keep exactly the fetched issues whose `created_at` is
strictly greater; with no stored watermark, keep everything. -/
def filter_new_issues (last_successful_run : Option Int) (issues : List RawIssue) :
    List RawIssue :=
  match last_successful_run with
  | none => issues
  | some t => issues.filter (fun i => decide (t < i.created_at))

/-- The run-metadata record persisted in `run_metadata.json`:
`last_successful_run` is the watermark (`None` for "no prior run"). -/
structure RunMetadata where
  last_successful_run : Option Int
  last_fetched_issues : Nat
  total_issues_processed : Nat
deriving DecidableEq

/-- `load_run_metadata` from `ingest.py`: read the metadata file, degrading
to the "no prior run" default when the file is absent or corrupt (both
modelled as `none`). -/
def load_run_metadata (file : Option RunMetadata) : RunMetadata :=
  file.getD { last_successful_run := none, last_fetched_issues := 0,
              total_issues_processed := 0 }

/-- The durable state `main` touches: the run-metadata file (absent/corrupt
as `none`) and the written partitions, keyed by processing date. -/
structure Store where
  metadata_file : Option RunMetadata
  partitions : List (String × List PIssue)
deriving DecidableEq

/-- `upload_to_gcs` from `ingest.py`: the upload attempt's outcome is
absorbed into a boolean — an exception anywhere in the body is caught,
logged and turned into `False`; the function never raises. -/
def upload_to_gcs (attempt : Except Unit Unit) : Bool :=
  match attempt with
  | Except.ok _ => true
  | Except.error _ => false

/-- The watermark computation at the end of `main`:
`df_postprocessed.select(pl.col("created_at")).max()`, i.e. the maximum
`created_at` over the just-processed records, `none` for an empty frame. -/
def maxCreatedAt (df : List PIssue) : Option Int :=
  df.foldl (fun acc r =>
    match acc with
    | none => some r.created_at
    | some m => some (max m r.created_at)) none

/-- Step 6 as `main` actually invokes it: `ingest.py` line 401 calls
`u.postprocess_issues(df_org, KEYWORDS_VERSION)`, passing two arguments to
the one-parameter `utils.postprocess_issues`, so the call raises
`TypeError` before the postprocessor body ever runs (and even with the
arity repaired, the body reads a column `labels` while enrichment writes
`labels_v1`). The call never returns a dataframe. -/
def postprocess_step (_df_org : List PIssue) : Except Unit (List PIssue) :=
  Except.error ()

/-- The control flow of `main` (`ingest.py` lines 344-438) over the durable
state. The fallible stages are modelled by their outcomes: `fetched` is the
result of `fetch_all_gitlab_issues` (which propagates transport errors);
`cleanf` is the clean-and-prepare stage (`clean_issues_df` +
`prepare_issues_df`; a timestamp parse failure raises); `enrichf` covers
steps 3-5 (client initialisation may raise; per-record service failures are
absorbed inside it, see `get_sentiment_score` etc.); `postf` is the step-6
postprocess call — in the program it is `postprocess_step`, which raises on
every input, and a repaired call site would be
`fun df => Except.ok (postprocess_issues df)`; `persist_ok` is whether
`write_parquet` succeeds; `upload_attempt` feeds `upload_to_gcs`, whose
result `main` ignores; `save_ok` is whether `save_run_metadata`'s write
succeeds (its failure is caught and logged). Any raising stage lands in
`main`'s `except` handler: the function returns `False` and the store is
left untouched. -/
def run_pipeline (store : Store) (fetched : Except Unit (List RawIssue))
    (cleanf : List RawIssue → Except Unit (List PIssue))
    (enrichf : List PIssue → Except Unit (List PIssue))
    (postf : List PIssue → Except Unit (List PIssue))
    (persist_ok save_ok : Bool) (upload_attempt : Except Unit Unit) (date : String) :
    Store × Bool :=
  let metadata := load_run_metadata store.metadata_file
  match fetched with
  | Except.error _ => (store, false)
  | Except.ok issues =>
    let new_issues := filter_new_issues metadata.last_successful_run issues
    if new_issues = [] then (store, true)
    else
      match cleanf new_issues with
      | Except.error _ => (store, false)
      | Except.ok df_prepared =>
        match enrichf df_prepared with
        | Except.error _ => (store, false)
        | Except.ok df_org =>
          match postf df_org with
          | Except.error _ => (store, false)
          | Except.ok df_postprocessed =>
            if persist_ok then
              let store1 : Store :=
                { store with partitions := store.partitions ++ [(date, df_postprocessed)] }
              let _uploaded := upload_to_gcs upload_attempt
              let new_md : RunMetadata :=
                { last_successful_run := maxCreatedAt df_postprocessed,
                  last_fetched_issues := new_issues.length,
                  total_issues_processed := df_postprocessed.length }
              (if save_ok then { store1 with metadata_file := some new_md } else store1, true)
            else (store, false)

/-- A cell value of a stored partition: a null (how alignment fills a
missing column) or a concrete value. -/
inductive Val where
  | null : Val
  | int : Int → Val
  | str : String → Val
deriving DecidableEq

/-- One row of a partition, as an association list from column name to cell
value (in the table's column order). -/
def Row : Type := List (String × Val)

instance : DecidableEq Row := by
  unfold Row
  infer_instance

/-- A partition table: its column names and its rows. -/
structure Table where
  cols : List String
  rows : List Row
deriving DecidableEq

/-- Lexicographic comparison of character lists by code point, the order
Python's `sorted` uses on strings. -/
def chListLt : List Char → List Char → Bool
  | [], [] => false
  | [], _ :: _ => true
  | _ :: _, [] => false
  | a :: as, b :: bs =>
    if a.toNat < b.toNat then true
    else if b.toNat < a.toNat then false
    else chListLt as bs

/-- Lexicographic string comparison by code point. -/
def strLt (a b : String) : Bool := chListLt a.data b.data

/-- Insertion into a lexicographically sorted list of strings, for
`sorted(all_columns)`. -/
def insertStr (s : String) : List String → List String
  | [] => [s]
  | t :: ts => if strLt s t then s :: t :: ts else t :: insertStr s ts

/-- Python's `sorted` on a list of strings (insertion sort). -/
def sortStrs (l : List String) : List String :=
  l.foldr insertStr []

/-- Schema alignment of one row in `load_data`: for every column of the
unioned schema, the row's value when the column is present and null
otherwise, in unioned-column order (`with_columns(pl.lit(None))` +
`select(sorted(all_columns))`). -/
def alignRow (allCols : List String) (row : Row) : Row :=
  allCols.map (fun c => (c, (row.lookup c).getD Val.null))

/-- Keep-last deduplication by a key, modelling polars
`unique(subset=["iid"], keep="last")`: a row survives exactly when no later
row carries the same key. -/
def dedupLastBy {α β : Type} [DecidableEq β] (key : α → β) : List α → List α
  | [] => []
  | x :: xs => if key x ∈ xs.map key then dedupLastBy key xs else x :: dedupLastBy key xs

/-- The partition reconciliation of `load_data` in `App.py` (lines 75-87):
union the column schema over all partitions (missing columns filled with
null, columns sorted), concatenate the aligned partitions in order, and
deduplicate on the `iid` column keeping the latest-seen record. -/
def load_data (dfs : List Table) : Table :=
  let allCols := sortStrs (dedupByFirst (fun c => c) (dfs.foldl (fun acc df => acc ++ df.cols) []))
  let aligned := dfs.foldl (fun acc df => acc ++ df.rows.map (alignRow allCols)) []
  { cols := allCols, rows := dedupLastBy (fun row => row.lookup "iid") aligned }

/-- A sample enriched record with the given labels and form page; all the
fields the postprocessor does not read are fixed. -/
def mkP (labs : List String) (fp : String) : PIssue :=
  { iid := 0, title := "", desc_clean := "", created_at := 0, sentiment := 0,
    labels := labs, org := "Unklar", is_from_form := true, form_page := fp }

/-- A sample raw issue with the given identity, content and creation time;
the remaining fields are fixed. -/
def mkRaw (iid : Int) (t d : String) (ca : Int) : RawIssue :=
  { iid := iid, title := t, description := d, state := "opened", created_at := ca,
    updated_at := ca, closed_at := none,
    author := { id := 1, name := "a", state := "active" },
    user_notes_count := 0, upvotes := 0, downvotes := 0, references := "" }

/-- A sample store with a stored watermark of 10, for exercising the no-op
run path. -/
def sampleStore : Store :=
  { metadata_file := some
      { last_successful_run := some 10, last_fetched_issues := 3,
        total_issues_processed := 3 },
    partitions := [("2025-12-01", [])] }

/-- `fix_empty_labels` does not touch `form_page`. -/
theorem fix_empty_labels_form_page (r : PIssue) :
    (fix_empty_labels r).form_page = r.form_page := by
  unfold fix_empty_labels
  split <;> rfl

/-- After `fix_empty_labels` the label list is non-empty. -/
theorem fix_empty_labels_ne_nil (r : PIssue) : (fix_empty_labels r).labels ≠ [] := by
  unfold fix_empty_labels
  split
  · simp
  · simpa using by assumption

/-- The label list `fix_empty_labels` leaves behind, as a function of the
original list. -/
theorem fix_empty_labels_labels (r : PIssue) :
    (fix_empty_labels r).labels = if r.labels = [] then ["Unklar"] else r.labels := by
  unfold fix_empty_labels
  split <;> simp [*]

/-- `fix_empty_labels` is idempotent on a record. -/
theorem fix_empty_labels_idem (r : PIssue) :
    fix_empty_labels (fix_empty_labels r) = fix_empty_labels r := by
  by_cases h : r.labels = [] <;> simp [fix_empty_labels, h]

/-- The `form_page` value `normalize_form_page` produces. -/
theorem normalize_form_page_val (r : PIssue) :
    (normalize_form_page r).form_page =
      if r.form_page = "/" then "home" else stripSuffixOnce r.form_page "/" := by
  unfold normalize_form_page
  split <;> simp [*]

/-- `normalize_form_page` does not touch the label list. -/
theorem normalize_form_page_labels (r : PIssue) :
    (normalize_form_page r).labels = r.labels := by
  unfold normalize_form_page
  split <;> rfl

/-- A record whose `form_page` does not end in "/" is untouched by
`normalize_form_page`. -/
theorem normalize_form_page_id (r : PIssue) (h : endsWithStr r.form_page "/" = false) :
    normalize_form_page r = r := by
  have hne : r.form_page ≠ "/" := by
    intro he
    rw [he] at h
    exact absurd h (by decide)
  unfold normalize_form_page
  rw [if_neg hne]
  unfold stripSuffixOnce
  rw [h]
  rfl

/-- Membership in the postprocessed table, unfolded to the three rules. -/
theorem mem_postprocess_iff (r : PIssue) (df : List PIssue) :
    r ∈ postprocess_issues df ↔
      ∃ r0 ∈ df, (fix_empty_labels r0).form_page ∉ exclude_pages ∧
        r = normalize_form_page (fix_empty_labels r0) := by
  unfold postprocess_issues
  simp only [List.mem_map, List.mem_filter, decide_eq_true_eq]
  constructor
  · rintro ⟨r1, ⟨⟨r0, hr0, rfl⟩, hpage⟩, rfl⟩
    exact ⟨r0, hr0, hpage, rfl⟩
  · rintro ⟨r0, hr0, hpage, rfl⟩
    exact ⟨fix_empty_labels r0, ⟨⟨r0, hr0, rfl⟩, hpage⟩, rfl⟩

/-- C1: after the Postprocessor runs on the fully enriched table (whose
label values all come from the configured vocabulary, as `validate_labels`
guarantees), every record's label sequence is non-empty, a record whose
label sequence was empty receives exactly the single sentinel label
"Unklar", and every element of every label sequence is either in the
vocabulary or the sentinel "Unklar". -/
theorem postprocess_labels_nonempty_and_in_vocab (vocab : List String) (df : List PIssue)
    (hvocab : ∀ r ∈ df, ∀ l ∈ r.labels, l ∈ vocab) :
    ∀ r ∈ postprocess_issues df,
      r.labels ≠ [] ∧ (∀ l ∈ r.labels, l ∈ vocab ∨ l = "Unklar") ∧
      ∃ r0 ∈ df, r.labels = if r0.labels = [] then ["Unklar"] else r0.labels := by
  intro r hr
  rw [mem_postprocess_iff] at hr
  obtain ⟨r0, hr0, hpage, rfl⟩ := hr
  have hl : (normalize_form_page (fix_empty_labels r0)).labels = (fix_empty_labels r0).labels :=
    normalize_form_page_labels _
  refine ⟨?_, ?_, ⟨r0, hr0, ?_⟩⟩
  · rw [hl]
    exact fix_empty_labels_ne_nil r0
  · rw [hl, fix_empty_labels_labels]
    by_cases h0 : r0.labels = []
    · rw [if_pos h0]
      intro l hlm
      simp only [List.mem_singleton] at hlm
      exact Or.inr hlm
    · rw [if_neg h0]
      intro l hlm
      exact Or.inl (hvocab r0 hr0 l hlm)
  · rw [hl, fix_empty_labels_labels]

/-- Witness for C1: the vocabulary hypothesis and the conclusion at a
two-record table with one empty label list. -/
theorem postprocess_labels_nonempty_and_in_vocab_witness :
    (∀ r ∈ [mkP [] "home", mkP ["A"] "home"], ∀ l ∈ r.labels, l ∈ ["A"]) ∧
    (∀ r ∈ postprocess_issues [mkP [] "home", mkP ["A"] "home"],
      r.labels ≠ [] ∧ (∀ l ∈ r.labels, l ∈ ["A"] ∨ l = "Unklar") ∧
      ∃ r0 ∈ [mkP [] "home", mkP ["A"] "home"],
        r.labels = if r0.labels = [] then ["Unklar"] else r0.labels) :=
  ⟨by decide, postprocess_labels_nonempty_and_in_vocab ["A"] _ (by decide)⟩

/-- One unfolding step of the postprocessor. -/
theorem postprocess_cons (x : PIssue) (xs : List PIssue) :
    postprocess_issues (x :: xs) =
      if (fix_empty_labels x).form_page ∈ exclude_pages then postprocess_issues xs
      else normalize_form_page (fix_empty_labels x) :: postprocess_issues xs := by
  unfold postprocess_issues
  simp only [List.map_cons, List.filter_cons]
  by_cases h : (fix_empty_labels x).form_page ∈ exclude_pages <;> simp [h]

/-- C2 counterexample: the Postprocessor is not idempotent. The table
containing one record with form page "/wtf/" and a non-empty label list is
itself an output of the Postprocessor, yet postprocessing it again drops
its row: the first pass normalizes "/wtf/" to "/wtf", which the second
pass's page-exclusion filter removes. -/
theorem postprocess_not_idempotent_cex :
    postprocess_issues (postprocess_issues [mkP ["A"] "/wtf/"]) ≠
      postprocess_issues [mkP ["A"] "/wtf/"] := by
  decide

/-- C2 as amended: the Postprocessor is idempotent on every table in which
no record's form page ends with "/" (in particular labels already non-empty
stay unchanged and form pages stay unchanged); idempotence fails in general
because normalizing a trailing slash can create a form page that the
page-exclusion filter of a second pass removes. -/
theorem postprocess_idempotent_on_slash_free (df : List PIssue)
    (h : ∀ r ∈ df, endsWithStr r.form_page "/" = false) :
    postprocess_issues (postprocess_issues df) = postprocess_issues df := by
  induction df with
  | nil => rfl
  | cons x xs ih =>
    have hx : endsWithStr x.form_page "/" = false := h x (List.mem_cons_self x xs)
    have hxs : ∀ r ∈ xs, endsWithStr r.form_page "/" = false := fun r hr =>
      h r (List.mem_cons_of_mem x hr)
    have hfp : (fix_empty_labels x).form_page = x.form_page := fix_empty_labels_form_page x
    rw [postprocess_cons]
    by_cases hc : (fix_empty_labels x).form_page ∈ exclude_pages
    · rw [if_pos hc]
      exact ih hxs
    · rw [if_neg hc]
      have hnorm : normalize_form_page (fix_empty_labels x) = fix_empty_labels x :=
        normalize_form_page_id _ (by rw [hfp]; exact hx)
      rw [hnorm, postprocess_cons, fix_empty_labels_idem, if_neg hc, hnorm, ih hxs]

/-- Witness for C2 as amended: a slash-free two-record table on which a
second postprocessing pass changes nothing. -/
theorem postprocess_idempotent_on_slash_free_witness :
    (∀ r ∈ [mkP [] "home", mkP ["A"] "/wtf"], endsWithStr r.form_page "/" = false) ∧
    postprocess_issues (postprocess_issues [mkP [] "home", mkP ["A"] "/wtf"]) =
      postprocess_issues [mkP [] "home", mkP ["A"] "/wtf"] :=
  ⟨by decide, postprocess_idempotent_on_slash_free _ (by decide)⟩

/-- C3 counterexample: after postprocessing, a form page can still end with
"/" without being "home" (input "//" is stripped once, to "/"), and a form
page can still equal a member of the configured excluded-page set
`EXCLUDE_PAGES`: the third configured value is not in the postprocessor's
hardcoded two-value list, and stripping "/wtf/" produces "/wtf" after the
filter has already run. -/
theorem postprocess_form_page_cex :
    (postprocess_issues
        [mkP ["A"] "//", mkP ["A"] "/landkarte/ Tech-Stack Aufnahmekriterien & Prozess",
         mkP ["A"] "/wtf/"]).map (fun r => r.form_page) =
      ["/", "/landkarte/ Tech-Stack Aufnahmekriterien & Prozess", "/wtf"] ∧
    endsWithStr "/" "/" = true ∧ ("/" : String) ≠ "home" ∧
    "/landkarte/ Tech-Stack Aufnahmekriterien & Prozess" ∈ EXCLUDE_PAGES ∧
    "/wtf" ∈ EXCLUDE_PAGES := by
  decide

/-- C3 as amended: every postprocessed record's form page is the
normalization of an input record's form page (exact "/" becomes "home",
otherwise one trailing "/" is stripped); and provided no input form page
ends with "/", every output form page neither ends with "/" nor equals any
value of the postprocessor's hardcoded two-value exclusion list
`exclude_pages`. -/
theorem postprocess_form_page_invariant (df : List PIssue) :
    (∀ r ∈ postprocess_issues df, ∃ r0 ∈ df,
        r.form_page = if r0.form_page = "/" then "home"
          else stripSuffixOnce r0.form_page "/") ∧
    ((∀ r ∈ df, endsWithStr r.form_page "/" = false) →
      ∀ r ∈ postprocess_issues df,
        endsWithStr r.form_page "/" = false ∧ r.form_page ∉ exclude_pages) := by
  constructor
  · intro r hr
    rw [mem_postprocess_iff] at hr
    obtain ⟨r0, hr0, hpage, rfl⟩ := hr
    exact ⟨r0, hr0, by rw [normalize_form_page_val, fix_empty_labels_form_page]⟩
  · intro h r hr
    rw [mem_postprocess_iff] at hr
    obtain ⟨r0, hr0, hpage, rfl⟩ := hr
    have hfp : (fix_empty_labels r0).form_page = r0.form_page := fix_empty_labels_form_page r0
    have h0 := h r0 hr0
    rw [normalize_form_page_id _ (by rw [hfp]; exact h0), hfp]
    rw [hfp] at hpage
    exact ⟨h0, hpage⟩

/-- C4: with a stored watermark `T` the incremental filter passes exactly
the fetched records whose `created_at` is strictly greater than `T`,
preserving their order, and with no stored watermark it keeps everything;
at the spec's example (`created_at` values T-1, T, T+1 around T = 0) only
the T+1 record survives. -/
theorem filter_new_issues_strictly_after (T : Int) (issues : List RawIssue) (i : RawIssue) :
    filter_new_issues none issues = issues ∧
    (i ∈ filter_new_issues (some T) issues ↔ i ∈ issues ∧ T < i.created_at) ∧
    (filter_new_issues (some T) issues).Sublist issues ∧
    filter_new_issues (some 0)
        [mkRaw 9 "a" "x" (-1), mkRaw 10 "b" "y" 0, mkRaw 11 "c" "z" 1] =
      [mkRaw 11 "c" "z" 1] := by
  refine ⟨rfl, ?_, ?_, by decide⟩
  · simp [filter_new_issues, List.mem_filter]
  · exact List.filter_sublist _

/-- C6: label validation splits the raw response on commas, strips each
token, and returns exactly the tokens that are in the allowed vocabulary,
in response order (a sublist of the token list); at the spec's example,
vocabulary ["A", "B"] and response "A, C, B" give ["A", "B"]. -/
theorem validate_labels_spec (s : String) (allowed : List String) (l : String) :
    validate_labels "A, C, B" ["A", "B"] = ["A", "B"] ∧
    (validate_labels s allowed).Sublist
      ((splitOnChar ',' s.data).map (fun t => String.mk (stripChars t))) ∧
    (l ∈ validate_labels s allowed ↔
      l ∈ (splitOnChar ',' s.data).map (fun t => String.mk (stripChars t)) ∧ l ∈ allowed) := by
  refine ⟨by decide, List.filter_sublist _, ?_⟩
  simp [validate_labels, List.mem_filter]

/-- C7: each enrichment call absorbs a raising remote call and returns its
safe default: sentiment 0.0 on error and on empty input (and the service's
score otherwise, staying in [-1, 1] whenever the service's scores do), the
empty label list for the classifier, "Unklar" for the organization
attributor. -/
theorem enrichment_clients_safe_defaults (e : Unit) (t : String) (s : ℚ)
    (resp : Except Unit ℚ) (labs : List String) :
    get_sentiment_score (Except.error e) t = 0 ∧
    get_sentiment_score resp "" = 0 ∧
    (t ≠ "" → get_sentiment_score (Except.ok s) t = s) ∧
    ((∀ v : ℚ, resp = Except.ok v → -1 ≤ v ∧ v ≤ 1) →
      -1 ≤ get_sentiment_score resp t ∧ get_sentiment_score resp t ≤ 1) ∧
    classify_issue_multilabel (Except.error e) labs = [] ∧
    add_issue_org_attribution (Except.error e) = "Unklar" := by
  refine ⟨?_, by simp [get_sentiment_score], ?_, ?_, rfl, rfl⟩
  · unfold get_sentiment_score
    split <;> rfl
  · intro ht
    simp [get_sentiment_score, ht]
  · intro hs
    unfold get_sentiment_score
    by_cases ht : t = ""
    · rw [if_pos ht]
      constructor <;> norm_num
    · rw [if_neg ht]
      cases resp with
      | ok v => exact hs v rfl
      | error u => constructor <;> norm_num

/-- Keep-first deduplication returns a sublist of its input (order
preserved, nothing invented). -/
theorem dedupByFirst_sublist {α β : Type} [DecidableEq β] (key : α → β) (l : List α) :
    (dedupByFirst key l).Sublist l := by
  induction l with
  | nil => exact List.Sublist.refl []
  | cons x xs ih => exact List.Sublist.cons₂ x ((List.filter_sublist _).trans ih)

/-- Filtering a list for key `k` after removing all elements whose key
matches `x`'s yields nothing when `key x = k`. -/
theorem filter_key_after_filter_ne {α β : Type} [DecidableEq β] (key : α → β) (x : α) (k : β)
    (hx : key x = k) (l : List α) :
    ((l.filter (fun y => decide (key y ≠ key x))).filter (fun y => decide (key y = k))) = [] := by
  rw [List.filter_filter]
  refine List.filter_eq_nil_iff.mpr fun y hy => ?_
  by_cases hyk : key y = k <;> simp [hyk, hx]

/-- Removing the elements whose key matches `x`'s does not change the
elements whose key is some other value `k`. -/
theorem filter_key_of_filter_ne {α β : Type} [DecidableEq β] (key : α → β) (x : α) (k : β)
    (hx : key x ≠ k) (l : List α) :
    ((l.filter (fun y => decide (key y ≠ key x))).filter (fun y => decide (key y = k))) =
      l.filter (fun y => decide (key y = k)) := by
  rw [List.filter_filter]
  refine List.filter_congr fun y hy => ?_
  by_cases hyk : key y = k
  · have hkx : k ≠ key x := fun h => hx h.symm
    simp [hyk, hkx]
  · simp [hyk]

/-- After keep-first deduplication, at most one element carries any given
key. -/
theorem dedupByFirst_count_le {α β : Type} [DecidableEq β] (key : α → β) (k : β) (l : List α) :
    ((dedupByFirst key l).filter (fun y => decide (key y = k))).length ≤ 1 := by
  induction l with
  | nil => exact Nat.zero_le 1
  | cons x xs ih =>
    simp only [dedupByFirst, List.filter_cons]
    by_cases hx : key x = k
    · rw [if_pos (by simp [hx]), filter_key_after_filter_ne key x k hx]
      exact Nat.le_refl 1
    · rw [if_neg (by simp [hx]), filter_key_of_filter_ne key x k hx]
      exact ih

/-- After keep-first deduplication, a key present in the input is carried
by exactly one element. -/
theorem dedupByFirst_count_eq {α β : Type} [DecidableEq β] (key : α → β) (k : β) (l : List α)
    (hk : k ∈ l.map key) :
    ((dedupByFirst key l).filter (fun y => decide (key y = k))).length = 1 := by
  induction l with
  | nil => simp at hk
  | cons x xs ih =>
    simp only [dedupByFirst, List.filter_cons]
    by_cases hx : key x = k
    · rw [if_pos (by simp [hx]), filter_key_after_filter_ne key x k hx]
      rfl
    · rw [if_neg (by simp [hx]), filter_key_of_filter_ne key x k hx]
      refine ih ?_
      simp only [List.map_cons, List.mem_cons] at hk
      rcases hk with h | h
      · exact absurd h.symm hx
      · exact h

/-- Filtering after a map is filtering the preimages before the map. -/
theorem map_then_filter {α β : Type} (f : α → β) (p : β → Bool) (l : List α) :
    (l.map f).filter p = (l.filter (fun a => p (f a))).map f := by
  induction l with
  | nil => rfl
  | cons a as ih =>
    simp only [List.map_cons, List.filter_cons]
    by_cases h : p (f a) = true
    · rw [if_pos h, if_pos h, List.map_cons, ih]
    · rw [if_neg h, if_neg h, ih]

/-- C8 counterexample: two raw records with identical (title, description)
need not collapse to exactly one row — when both iids are in the cleaner's
exclusion set the pair collapses to zero rows — and `iid` need not be
unique after cleaning when it was not unique in the raw input (the dedup
key is content, not iid). -/
theorem clean_issues_df_dedup_cex :
    clean_issues_df [mkRaw 1 "T" "D" 0, mkRaw 2 "T" "D" 0] IDS_TO_EXCLUDE = [] ∧
    (clean_issues_df [mkRaw 9 "T1" "D1" 0, mkRaw 9 "T2" "D2" 0] IDS_TO_EXCLUDE).map
        (fun c => c.iid) = [9, 9] := by
  decide

/-- C8 as amended: after cleaning, at most one row carries any given
(title, description) pair; the pair is carried by exactly one row whenever
some raw record with that pair survives the iid-exclusion filter (so two
raw duplicates with distinct non-excluded iids collapse to exactly one
row); and `iid` is unique after cleaning provided it was unique in the raw
input. -/
theorem clean_issues_df_dedup (df : List RawIssue) (excl : List Int) (t d : String) :
    (((clean_issues_df df excl).filter
        (fun c => decide (c.title = t ∧ c.description = d))).length ≤ 1) ∧
    ((∃ r ∈ df, r.iid ∉ excl ∧ r.title = t ∧ r.description = d) →
      ((clean_issues_df df excl).filter
        (fun c => decide (c.title = t ∧ c.description = d))).length = 1) ∧
    ((df.map (fun r => r.iid)).Nodup →
      ((clean_issues_df df excl).map (fun c => c.iid)).Nodup) := by
  have hcount : ∀ l : List RawIssue,
      ((l.map select_columns_to_keep).filter
        (fun c => decide (c.title = t ∧ c.description = d))) =
      (l.filter (fun r => decide ((r.title, r.description) = (t, d)))).map
        select_columns_to_keep := by
    intro l
    rw [map_then_filter]
    congr 1
    refine List.filter_congr fun r hr => ?_
    refine decide_eq_decide.mpr ?_
    simp [select_columns_to_keep, Prod.ext_iff]
  refine ⟨?_, ?_, ?_⟩
  · unfold clean_issues_df
    rw [hcount, List.length_map]
    exact dedupByFirst_count_le _ (t, d) _
  · rintro ⟨r, hr, hpass, ht, hd⟩
    unfold clean_issues_df
    rw [hcount, List.length_map]
    refine dedupByFirst_count_eq _ (t, d) _ ?_
    refine List.mem_map.mpr ⟨r, ?_, by rw [ht, hd]⟩
    exact List.mem_filter.mpr ⟨hr, by simpa using hpass⟩
  · intro hnodup
    unfold clean_issues_df
    rw [List.map_map]
    have hsub : (dedupByFirst (fun r : RawIssue => (r.title, r.description))
        (df.filter (fun r => decide (r.iid ∉ excl)))).Sublist df :=
      (dedupByFirst_sublist _ _).trans (List.filter_sublist _)
    exact hnodup.sublist (List.Sublist.map (fun r => r.iid) hsub)

/-- Witness for C8 as amended: two content-identical raw records with
distinct non-excluded iids leave exactly one cleaned row with that
content. -/
theorem clean_issues_df_dedup_witness :
    (∃ r ∈ [mkRaw 9 "T" "D" 0, mkRaw 10 "T" "D" 1],
      r.iid ∉ IDS_TO_EXCLUDE ∧ r.title = "T" ∧ r.description = "D") ∧
    ((clean_issues_df [mkRaw 9 "T" "D" 0, mkRaw 10 "T" "D" 1] IDS_TO_EXCLUDE).filter
        (fun c => decide (c.title = "T" ∧ c.description = "D"))).length = 1 :=
  ⟨by decide,
    (clean_issues_df_dedup [mkRaw 9 "T" "D" 0, mkRaw 10 "T" "D" 1]
      IDS_TO_EXCLUDE "T" "D").2.1 (by decide)⟩

/-- Keep-first deduplication with the identity key preserves membership. -/
theorem mem_dedupByFirst_id {α : Type} [DecidableEq α] (c : α) (l : List α) :
    c ∈ dedupByFirst (fun a => a) l ↔ c ∈ l := by
  induction l with
  | nil => simp [dedupByFirst]
  | cons x xs ih =>
    simp only [dedupByFirst, List.mem_cons]
    constructor
    · rintro (rfl | h)
      · exact Or.inl rfl
      · exact Or.inr (ih.mp (List.mem_of_mem_filter h))
    · rintro (rfl | h)
      · exact Or.inl rfl
      · by_cases hcx : c = x
        · exact Or.inl hcx
        · exact Or.inr (List.mem_filter.mpr ⟨ih.mpr h, by simpa using hcx⟩)

/-- Membership after inserting into a sorted list of strings. -/
theorem mem_insertStr (c s : String) (l : List String) :
    c ∈ insertStr s l ↔ c = s ∨ c ∈ l := by
  induction l with
  | nil => simp [insertStr]
  | cons t ts ih =>
    unfold insertStr
    by_cases h : strLt s t = true
    · rw [if_pos h]
      simp
    · rw [if_neg h]
      simp only [List.mem_cons, ih]
      tauto

/-- Sorting a list of strings preserves membership. -/
theorem mem_sortStrs (c : String) (l : List String) : c ∈ sortStrs l ↔ c ∈ l := by
  induction l with
  | nil => simp [sortStrs]
  | cons x xs ih =>
    show c ∈ insertStr x (sortStrs xs) ↔ _
    rw [mem_insertStr, ih]
    simp

/-- Membership in the folded column union of `load_data`. -/
theorem mem_foldl_cols (dfs : List Table) (acc : List String) (c : String) :
    c ∈ dfs.foldl (fun a df => a ++ df.cols) acc ↔ c ∈ acc ∨ ∃ df ∈ dfs, c ∈ df.cols := by
  induction dfs generalizing acc with
  | nil => simp
  | cons d ds ih =>
    simp only [List.foldl_cons]
    rw [ih]
    simp only [List.mem_append, List.mem_cons]
    constructor
    · rintro ((h | h) | ⟨df, hdf, hc⟩)
      · exact Or.inl h
      · exact Or.inr ⟨d, Or.inl rfl, h⟩
      · exact Or.inr ⟨df, Or.inr hdf, hc⟩
    · rintro (h | ⟨df, (rfl | hdf), hc⟩)
      · exact Or.inl (Or.inl h)
      · exact Or.inl (Or.inr hc)
      · exact Or.inr ⟨df, hdf, hc⟩

/-- Keep-last deduplication returns a sublist of its input. -/
theorem dedupLastBy_sublist {α β : Type} [DecidableEq β] (key : α → β) (l : List α) :
    (dedupLastBy key l).Sublist l := by
  induction l with
  | nil => exact List.Sublist.refl []
  | cons x xs ih =>
    unfold dedupLastBy
    by_cases h : key x ∈ xs.map key
    · rw [if_pos h]
      exact ih.cons x
    · rw [if_neg h]
      exact ih.cons₂ x

/-- After keep-last deduplication the keys are pairwise distinct. -/
theorem dedupLastBy_keys_nodup {α β : Type} [DecidableEq β] (key : α → β) (l : List α) :
    ((dedupLastBy key l).map key).Nodup := by
  induction l with
  | nil => simp [dedupLastBy]
  | cons x xs ih =>
    unfold dedupLastBy
    by_cases h : key x ∈ xs.map key
    · rw [if_pos h]
      exact ih
    · rw [if_neg h]
      simp only [List.map_cons]
      refine List.nodup_cons.mpr ⟨?_, ih⟩
      intro hm
      exact h (((dedupLastBy_sublist key xs).map key).subset hm)

/-- C9: the reader's partition reconciliation produces a table whose
column set is the union of all partitions' columns, whose rows come from
the aligned concatenation with at most one row per `iid` value
(keep-last); at the spec's example (P1 with columns iid, x and P2 with
columns iid, y sharing iid 1) the result has columns iid, x, y and
exactly one row for that iid, taken from P2 with x filled with null. -/
theorem load_data_reconciles_partitions (dfs : List Table) (c : String) :
    (c ∈ (load_data dfs).cols ↔ ∃ df ∈ dfs, c ∈ df.cols) ∧
    ((load_data dfs).rows.map (fun row => row.lookup "iid")).Nodup ∧
    load_data
        [{ cols := ["iid", "x"], rows := [[("iid", Val.int 1), ("x", Val.int 10)]] },
         { cols := ["iid", "y"], rows := [[("iid", Val.int 1), ("y", Val.int 20)]] }] =
      { cols := ["iid", "x", "y"],
        rows := [[("iid", Val.int 1), ("x", Val.null), ("y", Val.int 20)]] } := by
  refine ⟨?_, ?_, by decide⟩
  · show c ∈ sortStrs (dedupByFirst (fun a => a)
        (dfs.foldl (fun acc df => acc ++ df.cols) [])) ↔ _
    rw [mem_sortStrs, mem_dedupByFirst_id, mem_foldl_cols]
    simp
  · exact dedupLastBy_keys_nodup _ _

/-- The save semantics of `run_pipeline`'s control flow, for an arbitrary
step-6 outcome `postf`: any failing stage — fetch, clean, enrich,
postprocess, persist — returns failure with the store untouched, and only
when every stage returns is the metadata file written, with the watermark
equal to `maxCreatedAt` of the postprocessed records; the absorbed upload
outcome never changes the result. In the program itself `postf` is
`postprocess_step`, whose error branch is the one taken on every input (see
`run_pipeline_never_saves_metadata`). -/
theorem run_pipeline_save_semantics (store : Store)
    (fetched : Except Unit (List RawIssue))
    (cleanf : List RawIssue → Except Unit (List PIssue))
    (enrichf postf : List PIssue → Except Unit (List PIssue))
    (persist_ok save_ok : Bool) (up up2 : Except Unit Unit) (date : String) :
    (fetched = Except.error () →
      run_pipeline store fetched cleanf enrichf postf persist_ok save_ok up date
        = (store, false)) ∧
    (∀ issues ni, fetched = Except.ok issues →
      filter_new_issues (load_run_metadata store.metadata_file).last_successful_run issues
        = ni →
      ni ≠ [] →
      ((cleanf ni = Except.error () →
        run_pipeline store fetched cleanf enrichf postf persist_ok save_ok up date
          = (store, false)) ∧
       ∀ dfp, cleanf ni = Except.ok dfp →
        ((enrichf dfp = Except.error () →
          run_pipeline store fetched cleanf enrichf postf persist_ok save_ok up date
            = (store, false)) ∧
         ∀ dfo, enrichf dfp = Except.ok dfo →
          ((postf dfo = Except.error () →
            run_pipeline store fetched cleanf enrichf postf persist_ok save_ok up date
              = (store, false)) ∧
           ∀ dfpost, postf dfo = Except.ok dfpost →
            ((persist_ok = false →
              run_pipeline store fetched cleanf enrichf postf persist_ok save_ok up date
                = (store, false)) ∧
             (persist_ok = true → save_ok = true →
              run_pipeline store fetched cleanf enrichf postf persist_ok save_ok up date =
                ({ metadata_file := some
                     { last_successful_run := maxCreatedAt dfpost,
                       last_fetched_issues := ni.length,
                       total_issues_processed := dfpost.length },
                   partitions := store.partitions ++ [(date, dfpost)] },
                 true)) ∧
             (persist_ok = true → save_ok = false →
              run_pipeline store fetched cleanf enrichf postf persist_ok save_ok up date =
                ({ metadata_file := store.metadata_file,
                   partitions := store.partitions ++ [(date, dfpost)] },
                 true))))))) ∧
    (run_pipeline store fetched cleanf enrichf postf persist_ok save_ok up date =
      run_pipeline store fetched cleanf enrichf postf persist_ok save_ok up2 date) := by
  refine ⟨?_, ?_, ?_⟩
  · rintro rfl
    rfl
  · rintro issues ni rfl rfl hne
    simp only [run_pipeline]
    rw [if_neg hne]
    refine ⟨fun hce => by simp only [hce], ?_⟩
    intro dfp hcp
    simp only [hcp]
    refine ⟨fun hee => by simp only [hee], ?_⟩
    intro dfo heo
    simp only [heo]
    refine ⟨fun hpe => by simp only [hpe], ?_⟩
    intro dfpost hpo
    simp only [hpo]
    refine ⟨?_, ?_, ?_⟩
    · rintro rfl
      rfl
    · rintro rfl rfl
      rfl
    · rintro rfl rfl
      rfl
  · rfl

/-- C5 (code bug): with step 6 as `main` actually invokes it
(`postprocess_step`, the two-argument call of the one-parameter
`postprocess_issues`, which raises on every input), the pipeline never
saves run metadata: whatever the remaining stages do, the returned store —
metadata file with its watermark, and partitions — equals the prior store,
and the run reports success exactly when the incremental filter leaves
nothing to process; the concrete one-record run whose other stages all
succeed returns failure with the store untouched. -/
theorem run_pipeline_never_saves_metadata (store : Store)
    (fetched : Except Unit (List RawIssue))
    (cleanf : List RawIssue → Except Unit (List PIssue))
    (enrichf : List PIssue → Except Unit (List PIssue))
    (persist_ok save_ok : Bool) (up : Except Unit Unit) (date : String) :
    ((run_pipeline store fetched cleanf enrichf postprocess_step persist_ok save_ok up
        date).1 = store) ∧
    ((run_pipeline store fetched cleanf enrichf postprocess_step persist_ok save_ok up
        date).2 = true ↔
      ∃ issues, fetched = Except.ok issues ∧
        filter_new_issues (load_run_metadata store.metadata_file).last_successful_run issues
          = []) ∧
    run_pipeline { metadata_file := none, partitions := [] } (Except.ok [mkRaw 9 "t" "d" 5])
        (fun _ => Except.ok [mkP ["A"] "home"]) (fun l => Except.ok l) postprocess_step
        true true (Except.ok ()) "2026-01-01" =
      ({ metadata_file := none, partitions := [] }, false) := by
  refine ⟨?_, ?_, rfl⟩
  · cases fetched with
    | error e => rfl
    | ok issues =>
      simp only [run_pipeline]
      by_cases h : filter_new_issues
          (load_run_metadata store.metadata_file).last_successful_run issues = []
      · rw [if_pos h]
      · rw [if_neg h]
        cases hc : cleanf (filter_new_issues
            (load_run_metadata store.metadata_file).last_successful_run issues) with
        | error e => rfl
        | ok dfp =>
          cases he : enrichf dfp with
          | error e => simp [he]
          | ok dfo => simp [he, postprocess_step]
  · cases fetched with
    | error e => simp [run_pipeline]
    | ok issues =>
      simp only [run_pipeline]
      by_cases h : filter_new_issues
          (load_run_metadata store.metadata_file).last_successful_run issues = []
      · rw [if_pos h]
        simp [h]
      · rw [if_neg h]
        cases hc : cleanf (filter_new_issues
            (load_run_metadata store.metadata_file).last_successful_run issues) with
        | error e => simp [h]
        | ok dfp =>
          cases he : enrichf dfp with
          | error e => simp [he, h]
          | ok dfo => simp [he, postprocess_step, h]

/-- C10: when the incremental filter leaves no new issues, the pipeline
returns success immediately and the store — the metadata file with its
watermark and counters, and the written partitions — is exactly the prior
store. -/
theorem empty_run_leaves_state_unchanged (store : Store) (issues : List RawIssue)
    (cleanf : List RawIssue → Except Unit (List PIssue))
    (enrichf postf : List PIssue → Except Unit (List PIssue))
    (persist_ok save_ok : Bool) (up : Except Unit Unit) (date : String)
    (hempty : filter_new_issues (load_run_metadata store.metadata_file).last_successful_run
        issues = []) :
    run_pipeline store (Except.ok issues) cleanf enrichf postf persist_ok save_ok up date =
      (store, true) := by
  simp only [run_pipeline]
  rw [if_pos hempty]

/-- Witness for C10: with a stored watermark of 10 and fetched records
created at 5 and 10, the filter is empty and the run — with step 6 exactly
as the program invokes it — returns success with the store unchanged. -/
theorem empty_run_leaves_state_unchanged_witness :
    (filter_new_issues (load_run_metadata sampleStore.metadata_file).last_successful_run
        [mkRaw 9 "a" "x" 5, mkRaw 11 "b" "y" 10] = []) ∧
    run_pipeline sampleStore (Except.ok [mkRaw 9 "a" "x" 5, mkRaw 11 "b" "y" 10])
        (fun _ => Except.ok []) (fun l => Except.ok l) postprocess_step
        true true (Except.ok ()) "2026-01-02" =
      (sampleStore, true) :=
  ⟨by decide,
    empty_run_leaves_state_unchanged sampleStore
      [mkRaw 9 "a" "x" 5, mkRaw 11 "b" "y" 10]
      (fun _ => Except.ok []) (fun l => Except.ok l) postprocess_step
      true true (Except.ok ()) "2026-01-02"
      (by decide)⟩
